import Mathlib

/-!
Shallow embedding of the SHFE futures backtesting engine
(`SHFEFuturesBacktest` in `app.py`) and proofs about its specification.

Conventions of the embedding:
* Python floats are modelled by exact rationals (`ℚ`); the properties below
  are therefore statements about the engine in exact arithmetic.
* Python `round(x)` (banker's rounding, half to even) is `pyRound`;
  Python `int(x)` (truncation toward zero) is `pyInt`.
* The engine's `self.data` DataFrame is passed explicitly: a bar carries the
  fields the engine actually reads (`datetime`, modelled as an abstract
  natural-number timestamp, and `close`); `open/high/low/volume` are never
  read by the engine and are omitted.
* The source stores `commission`, `margin` and `profit` in each trade-record
  dict rounded to two decimals (`round(x, 2)`).  Those stored copies are
  display-only: the engine itself only ever reads back the `action`,
  `symbol`, `direction` and `price` fields of a record (in `_close` and
  `_update_asset`), and `price` is stored unrounded.  We keep the exact
  values in `TradeRecord` and expose the two-decimal view separately as
  `TradeRecord.displayed`, so that statements about the ledger can speak
  about the exact amounts that were applied to cash.
* Where Python would raise `ZeroDivisionError` (`margin_ratio = 0`,
  `pricetick = 0`, a zero bar price), rational division totalises to 0;
  theorems that depend on these quantities carry positivity hypotheses.
-/

/-- Python's built-in `round` to an integer: round half to even. -/
def pyRound (x : ℚ) : ℤ :=
  if x - ⌊x⌋ < 1/2 then ⌊x⌋
  else if 1/2 < x - ⌊x⌋ then ⌊x⌋ + 1
  else if 2 ∣ ⌊x⌋ then ⌊x⌋ else ⌊x⌋ + 1

/-- Python's `int()` applied to a float: truncation toward zero. -/
def pyInt (x : ℚ) : ℤ :=
  if 0 ≤ x then ⌊x⌋ else -⌊-x⌋

/-- Python's `round(x, 2)` used by the source when storing commission,
margin and profit into a trade-record dict. -/
def round2 (x : ℚ) : ℚ :=
  (pyRound (x * 100) : ℚ) / 100

/-- Trade direction, the `"long"` / `"short"` strings of the source. -/
inductive Dir : Type
  | long : Dir
  | short : Dir
  deriving DecidableEq, Repr

/-- One entry of `self.trade_records`.  The source uses a dict whose
`action` field is `"开仓"` (open) or `"平仓"` (close); an open dict carries
a `margin` field and a close dict carries a `profit` field. -/
inductive TradeRecord : Type
  | openRec (datetime : ℕ) (symbol : String) (direction : Dir)
      (price : ℚ) (volume : ℤ) (commission : ℚ) (margin : ℚ) : TradeRecord
  | closeRec (datetime : ℕ) (symbol : String) (direction : Dir)
      (price : ℚ) (volume : ℤ) (commission : ℚ) (profit : ℚ) : TradeRecord
  deriving DecidableEq, Repr

namespace TradeRecord

/-- The `commission` field of a record. -/
def commission : TradeRecord → ℚ
  | openRec _ _ _ _ _ c _ => c
  | closeRec _ _ _ _ _ c _ => c

/-- The `profit` field of a close record (0 for an open record, which has
no such field). -/
def profit : TradeRecord → ℚ
  | openRec _ _ _ _ _ _ _ => 0
  | closeRec _ _ _ _ _ _ p => p

/-- The `price` field of a record. -/
def price : TradeRecord → ℚ
  | openRec _ _ _ p _ _ _ => p
  | closeRec _ _ _ p _ _ _ => p

/-- The `volume` field of a record. -/
def volume : TradeRecord → ℤ
  | openRec _ _ _ _ v _ _ => v
  | closeRec _ _ _ _ v _ _ => v

/-- Whether the record's `action` field is `"开仓"` (an Open). -/
def isOpen : TradeRecord → Bool
  | openRec _ _ _ _ _ _ _ => true
  | closeRec _ _ _ _ _ _ _ => false

/-- Replace the `datetime` field, leaving all trading data unchanged. -/
def mapDt (g : ℕ → ℕ) : TradeRecord → TradeRecord
  | openRec dt sym d p v c m => openRec (g dt) sym d p v c m
  | closeRec dt sym d p v c pr => closeRec (g dt) sym d p v c pr

/-- The record as the source actually stores it: `commission`, `margin`
and `profit` rounded to two decimals by `round(x, 2)`; all other fields
(including `price`) are stored exactly. -/
def displayed : TradeRecord → TradeRecord
  | openRec dt sym d p v c m => openRec dt sym d p v (round2 c) (round2 m)
  | closeRec dt sym d p v c pr => closeRec dt sym d p v (round2 c) (round2 pr)

end TradeRecord

/-- One row of the input DataFrame, restricted to the fields the engine
reads: `row["datetime"]` and `row["close"]`. -/
structure Bar : Type where
  datetime : ℕ
  close : ℚ
  deriving DecidableEq, Repr

/-- One row of `self.data` after `calculate_ma`: the bar plus its two
rolling means `ma_fast` and `ma_slow`. -/
structure MaRow : Type where
  datetime : ℕ
  price : ℚ
  ma_fast : ℚ
  ma_slow : ℚ
  deriving DecidableEq, Repr

/-- The mutable state of a `SHFEFuturesBacktest` instance. -/
structure SHFEFuturesBacktest : Type where
  symbol : String
  initial_capital : ℚ
  contract_size : ℚ
  pricetick : ℚ
  futures_name : String
  margin_ratio : ℚ
  commission_rate : ℚ
  slippage : ℚ
  cash : ℚ
  margin : ℚ
  holdings : ℤ
  total_asset : List ℚ
  trade_records : List TradeRecord
  deriving DecidableEq, Repr

namespace SHFEFuturesBacktest

/-- The static `futures_specs` table of `__init__`, keyed by the 2-letter
product code: `(contract_size, pricetick, name)`. -/
def futures_specs (pfx : String) : Option (ℚ × ℚ × String) :=
  match pfx with
  | "RB" => some (10, 1, "螺纹钢")
  | "HC" => some (10, 1, "热轧卷板")
  | "CU" => some (5, 10, "铜")
  | "AL" => some (5, 5, "铝")
  | "ZN" => some (5, 5, "锌")
  | "PB" => some (5, 5, "铅")
  | "NI" => some (1, 10, "镍")
  | "SN" => some (1, 10, "锡")
  | "AU" => some (1000, 1/50, "黄金")
  | "AG" => some (15, 1, "白银")
  | "RU" => some (10, 5, "橡胶")
  | "BU" => some (10, 2, "沥青")
  | "FU" => some (10, 1, "燃料油")
  | "SP" => some (10, 2, "纸浆")
  | _ => none

/-- `__init__`: resolve the contract specification from the first two
characters of the symbol (falling back to multiplier 10, tick 1), set the
default `margin_ratio = 0.10`, `commission_rate = 0.0001`,
`slippage = pricetick * 2`, and initialise the account.  The body contains
no validation of any kind and cannot fail. -/
def init (symbol : String) (initial_capital : ℚ) : SHFEFuturesBacktest :=
  let symbolPfx := symbol.take 2
  let spec := futures_specs symbolPfx
  let contract_size := match spec with | some (cs, _, _) => cs | none => 10
  let pricetick := match spec with | some (_, pt, _) => pt | none => 1
  let futures_name := match spec with | some (_, _, n) => n | none => "未知品种"
  { symbol := symbol
    initial_capital := initial_capital
    contract_size := contract_size
    pricetick := pricetick
    futures_name := futures_name
    margin_ratio := 1/10
    commission_rate := 1/10000
    slippage := pricetick * 2
    cash := initial_capital
    margin := 0
    holdings := 0
    total_asset := [initial_capital]
    trade_records := [] }

/-- `set_params`: each argument, when supplied, overwrites the
corresponding field verbatim; `None` arguments leave the default.  No
value is checked. -/
def set_params (s : SHFEFuturesBacktest)
    (margin_ratio? commission_rate? slippage? : Option ℚ) : SHFEFuturesBacktest :=
  { s with
    margin_ratio := margin_ratio?.getD s.margin_ratio
    commission_rate := commission_rate?.getD s.commission_rate
    slippage := slippage?.getD s.slippage }

/-- Whether `"RB" in symbol` holds, i.e. the character list contains the
substring `RB`. -/
def containsRB : List Char → Bool
  | 'R' :: 'B' :: _ => true
  | _ :: rest => containsRB rest
  | [] => false

/-- The `"RB" in self.symbol` test of `_close`. -/
def hasRB (s : String) : Bool := containsRB s.toList

/-- Walk an already-reversed trade log front to back and return the
`price` of the first record whose `action` is `"开仓"`, whose `symbol`
matches and whose `direction` matches; `0` if no such record exists. -/
def scanOpenPrice (sym : String) (dir : Dir) : List TradeRecord → ℚ
  | [] => 0
  | TradeRecord.openRec _ s d p _ _ _ :: rest =>
      if s = sym ∧ d = dir then p else scanOpenPrice sym dir rest
  | TradeRecord.closeRec _ _ _ _ _ _ _ :: rest => scanOpenPrice sym dir rest

/-- The backward scan of `_close` and `_update_asset`: walk
`reversed(self.trade_records)` looking for the most recent matching open
record. -/
def findOpenPrice (records : List TradeRecord) (sym : String) (dir : Dir) : ℚ :=
  scanOpenPrice sym dir records.reverse

/-- The direction encoded by a holdings value (`+` long, `-` short); for
`holdings ≠ 0` this is the `direction` string `_close` and `_update_asset`
reconstruct from the sign of `self.holdings`. -/
def dirOf (h : ℤ) : Dir := if 0 < h then Dir.long else Dir.short

/-- Snap a price to the nearest multiple of the tick:
`round(x / self.pricetick) * self.pricetick`. -/
def tickRound (s : SHFEFuturesBacktest) (x : ℚ) : ℚ :=
  (pyRound (x / s.pricetick) : ℚ) * s.pricetick

/-- `_open`'s position size:
`int(self.cash * 0.9 / (price * contract_size * margin_ratio))`. -/
def openVol (s : SHFEFuturesBacktest) (price : ℚ) : ℤ :=
  pyInt (s.cash * (9/10) / (price * s.contract_size * s.margin_ratio))

/-- `_open`'s execution price: slippage added for a long, subtracted for a
short, then tick rounding. -/
def openExec (s : SHFEFuturesBacktest) (direction : Dir) (price : ℚ) : ℚ :=
  tickRound s (if direction = Dir.long then price + s.slippage else price - s.slippage)

/-- `_open`'s commission: notional times the base rate, floored at 5 yuan. -/
def openCommission (s : SHFEFuturesBacktest) (direction : Dir) (price : ℚ) : ℚ :=
  max (openExec s direction price * (openVol s price : ℚ) * s.contract_size *
    s.commission_rate) 5

/-- `_open`'s reserved margin: notional times the margin ratio. -/
def openMargin (s : SHFEFuturesBacktest) (direction : Dir) (price : ℚ) : ℚ :=
  openExec s direction price * (openVol s price : ℚ) * s.contract_size * s.margin_ratio

/-- `_open`: when the computed volume is not positive, return silently
with no state change; otherwise pay margin and commission out of cash,
add the margin, set the signed holdings, and append an open record. -/
def openPos (s : SHFEFuturesBacktest) (direction : Dir) (price : ℚ) (dt : ℕ) :
    SHFEFuturesBacktest :=
  if openVol s price ≤ 0 then s
  else
    { s with
      cash := s.cash - (openMargin s direction price + openCommission s direction price)
      margin := s.margin + openMargin s direction price
      holdings := if direction = Dir.long then openVol s price else -(openVol s price)
      trade_records := s.trade_records ++
        [TradeRecord.openRec dt s.symbol direction (openExec s direction price)
          (openVol s price) (openCommission s direction price) (openMargin s direction price)] }

/-- `_close`'s execution price: slippage subtracted when closing a long,
added when closing a short, then tick rounding. -/
def closeExec (s : SHFEFuturesBacktest) (price : ℚ) : ℚ :=
  tickRound s (if dirOf s.holdings = Dir.long then price - s.slippage else price + s.slippage)

/-- `_close`'s commission rate: the base rate times 5 whenever
`"RB" in self.symbol`, else the base rate. -/
def closeRate (s : SHFEFuturesBacktest) : ℚ :=
  if hasRB s.symbol then s.commission_rate * 5 else s.commission_rate

/-- `_close`'s commission: notional times `closeRate`, floored at 5 yuan. -/
def closeCommission (s : SHFEFuturesBacktest) (price : ℚ) : ℚ :=
  max (closeExec s price * (|s.holdings| : ℚ) * s.contract_size * closeRate s) 5

/-- `_close`'s open price: the backward scan of the trade log, with the
bar's own price substituted when the scan yields 0. -/
def closeOpenPrice (s : SHFEFuturesBacktest) (price : ℚ) : ℚ :=
  if findOpenPrice s.trade_records s.symbol (dirOf s.holdings) = 0 then price
  else findOpenPrice s.trade_records s.symbol (dirOf s.holdings)

/-- `_close`'s realised profit: `(exec − open) × vol × contract_size` for
a long, `(open − exec) × vol × contract_size` for a short. -/
def closeProfit (s : SHFEFuturesBacktest) (price : ℚ) : ℚ :=
  if dirOf s.holdings = Dir.long then
    (closeExec s price - closeOpenPrice s price) * (|s.holdings| : ℚ) * s.contract_size
  else
    (closeOpenPrice s price - closeExec s price) * (|s.holdings| : ℚ) * s.contract_size

/-- `_close`: a no-op when flat; otherwise realise the profit, return the
whole margin plus profit minus commission to cash, zero the margin and
holdings, and append a close record. -/
def closePos (s : SHFEFuturesBacktest) (price : ℚ) (dt : ℕ) : SHFEFuturesBacktest :=
  if s.holdings = 0 then s
  else
    { s with
      cash := s.cash + (s.margin + closeProfit s price - closeCommission s price)
      margin := 0
      holdings := 0
      trade_records := s.trade_records ++
        [TradeRecord.closeRec dt s.symbol (dirOf s.holdings) (closeExec s price)
          |s.holdings| (closeCommission s price) (closeProfit s price)] }

/-- The floating-profit computation of `_update_asset`: 0 when flat or
when the trade log is empty; otherwise the backward scan recovers the open
price, and the mark-to-market profit against the bar's close is returned
(0 again if the scan did not produce a positive price). -/
def floating_profit (s : SHFEFuturesBacktest) (price : ℚ) : ℚ :=
  if s.holdings ≠ 0 ∧ s.trade_records ≠ [] then
    if 0 < findOpenPrice s.trade_records s.symbol (dirOf s.holdings) then
      if dirOf s.holdings = Dir.long then
        (price - findOpenPrice s.trade_records s.symbol (dirOf s.holdings)) *
          (s.holdings : ℚ) * s.contract_size
      else
        (findOpenPrice s.trade_records s.symbol (dirOf s.holdings) - price) *
          (|s.holdings| : ℚ) * s.contract_size
    else 0
  else 0

/-- `_update_asset`: append `cash + margin + floating_profit` to
`self.total_asset`. -/
def update_asset (s : SHFEFuturesBacktest) (price : ℚ) : SHFEFuturesBacktest :=
  { s with total_asset := s.total_asset ++ [s.cash + s.margin + floating_profit s price] }

/-- The trailing simple moving average `rolling(w).mean()` of the closes,
evaluated at index `i` (meaningful for `w ≥ 1` and `i + 1 ≥ w`, which is
exactly where `calculate_ma` keeps the row). -/
def rollMean (closes : List ℚ) (w i : ℕ) : ℚ :=
  (((closes.take (i + 1)).drop (i + 1 - w)).sum) / (w : ℚ)

/-- The row of the augmented DataFrame at index `i`. -/
def maRow (bars : List Bar) (fast slow i : ℕ) : MaRow :=
  let closes := bars.map Bar.close
  { datetime := (bars.getD i ⟨0, 0⟩).datetime
    price := (bars.getD i ⟨0, 0⟩).close
    ma_fast := rollMean closes fast i
    ma_slow := rollMean closes slow i }

/-- `calculate_ma`: attach both rolling means to every bar and drop the
leading rows where either mean is undefined — exactly the first
`max fast slow − 1` rows (`rolling(w).mean()` is NaN for the first
`w − 1` rows and `dropna()` removes a row when any column is NaN). -/
def calculate_ma (bars : List Bar) (fast slow : ℕ) : List MaRow :=
  ((List.range bars.length).map (maRow bars fast slow)).drop (max fast slow - 1)

/-- The trading part of one iteration of the `run_backtest` loop: golden
cross opens long (closing a short first), dead cross opens short (closing
a long first), anything else is a no-op. -/
def tradeStep (s : SHFEFuturesBacktest) (row : MaRow) : SHFEFuturesBacktest :=
  if row.ma_slow < row.ma_fast ∧ s.holdings ≤ 0 then
    openPos (if s.holdings < 0 then closePos s row.price row.datetime else s)
      Dir.long row.price row.datetime
  else if row.ma_fast < row.ma_slow ∧ 0 ≤ s.holdings then
    openPos (if 0 < s.holdings then closePos s row.price row.datetime else s)
      Dir.short row.price row.datetime
  else s

/-- One full iteration of the `run_backtest` loop: trade, then append the
equity point. -/
def stepRow (s : SHFEFuturesBacktest) (row : MaRow) : SHFEFuturesBacktest :=
  update_asset (tradeStep s row) row.price

/-- `run_backtest`: compute the moving averages, drop the undefined rows,
and fold the per-bar step over what remains. -/
def run_backtest (s : SHFEFuturesBacktest) (bars : List Bar) (fast slow : ℕ) :
    SHFEFuturesBacktest :=
  (calculate_ma bars fast slow).foldl stepRow s

end SHFEFuturesBacktest

namespace SHFEFuturesBacktest

/-- pandas `Series.pct_change().dropna()`: the relative change between
consecutive elements; the undefined first entry is dropped. -/
def pct_change : List ℚ → List ℚ
  | a :: b :: rest => (b - a) / a :: pct_change (b :: rest)
  | _ => []

/-- The arithmetic mean of a list (`Series.mean()`). -/
def listMean (l : List ℚ) : ℚ := l.sum / (l.length : ℚ)

/-- pandas `Series.std()` squared, i.e. the sample variance with
`ddof = 1`: sum of squared deviations over `n − 1`.  Meaningful for
`n ≥ 2`, exactly where the source consults it. -/
def sampleVar (l : List ℚ) : ℚ :=
  (l.map (fun x => (x - listMean l) * (x - listMean l))).sum / ((l.length : ℚ) - 1)

/-- pandas `Series.std()` as a real number. -/
noncomputable def stdevOf (l : List ℚ) : ℝ := Real.sqrt ((sampleVar l : ℚ) : ℝ)

/-- The guard `returns.std() > 0` of the source.  For fewer than two
returns the pandas standard deviation (with `ddof = 1`) is NaN and
`NaN > 0` is `False`, so the guard also demands at least two entries. -/
def stdGuard (l : List ℚ) : Prop := 2 ≤ l.length ∧ 0 < sampleVar l

instance (l : List ℚ) : Decidable (stdGuard l) := by unfold stdGuard; infer_instance

/-- The Sharpe-style ratio of the source:
`returns.mean() / returns.std() * np.sqrt(252)` when the guard holds, the
sentinel `0` otherwise. -/
noncomputable def sharpeOf (l : List ℚ) : ℝ :=
  if stdGuard l then ((listMean l : ℚ) : ℝ) / stdevOf l * Real.sqrt 252 else 0

/-- pandas `Series.cummax()`: running maxima. -/
def cummaxAux (m : ℚ) : List ℚ → List ℚ
  | [] => []
  | a :: rest => max m a :: cummaxAux (max m a) rest

/-- pandas `Series.cummax()`: running maxima. -/
def cummax : List ℚ → List ℚ
  | [] => []
  | a :: rest => a :: cummaxAux a rest

/-- `Series.min()` of a list with a default for the empty case. -/
def minD (l : List ℚ) (d : ℚ) : ℚ :=
  match l with
  | [] => d
  | a :: rest => rest.foldl min a

/-- The number of records whose `action` is `"开仓"` — the trade count
reported by `_get_metrics`. -/
def countOpens (records : List TradeRecord) : ℕ :=
  (records.filter TradeRecord.isOpen).length

/-- The record returned by `_get_metrics`.  The source rounds each
reported numeric figure to two decimals with `round(x, 2)` for display;
the fields here carry the unrounded values those roundings are applied
to. -/
structure Metrics : Type where
  total_return : ℚ
  annual_return : ℚ
  sharpe : ℝ
  max_dd : ℚ
  trade_count : ℕ
  initial_capital : ℚ
  final_asset : ℚ

/-- `_get_metrics`: the early all-zero return for an equity curve of at
most one point, otherwise total return, annualised return
(`returns.mean() * 252 * 100`), the guarded Sharpe-style ratio, the
maximum drawdown from running maxima, and the count of open records. -/
noncomputable def get_metrics (s : SHFEFuturesBacktest) : Metrics :=
  if s.total_asset.length ≤ 1 then
    { total_return := 0, annual_return := 0, sharpe := 0, max_dd := 0,
      trade_count := 0, initial_capital := s.initial_capital,
      final_asset := s.initial_capital }
  else
    let asset := s.total_asset
    let last := asset.getLastD 0
    let total_return := (last - s.initial_capital) / s.initial_capital * 100
    let returns := pct_change asset
    let annual_return := if 0 < returns.length then listMean returns * 252 * 100 else 0
    let sharpe : ℝ := if 0 < returns.length then sharpeOf returns else 0
    let dds := List.zipWith (fun a m => (a - m) / m * 100) asset (cummax asset)
    { total_return := total_return, annual_return := annual_return,
      sharpe := sharpe, max_dd := minD dds 0,
      trade_count := countOpens s.trade_records,
      initial_capital := s.initial_capital, final_asset := last }

/-- Sum of the `profit` fields over the close records of a trade log
(open records contribute 0: they carry no profit field). -/
def sumProfits (records : List TradeRecord) : ℚ :=
  (records.map TradeRecord.profit).sum

/-- Sum of the `commission` fields over all records of a trade log. -/
def sumCommissions (records : List TradeRecord) : ℚ :=
  (records.map TradeRecord.commission).sum

end SHFEFuturesBacktest

namespace SHFEFuturesBacktest

/-- One step of the well-formedness scan of a trade log: an Open is legal
only when no Open is pending, a Close only when one is. -/
def logStep (pending : Bool) : TradeRecord → Option Bool
  | TradeRecord.openRec _ _ _ _ _ _ _ => if pending then none else some true
  | TradeRecord.closeRec _ _ _ _ _ _ _ => if pending then some false else none

/-- Scan a trade log front to back: `some p` when the records strictly
alternate Open, Close, Open, …, with `p` telling whether an Open is
pending at the end; `none` when two Opens occur without a Close between
them or a Close occurs without a pending Open. -/
def logScan : List TradeRecord → Bool → Option Bool
  | [], p => some p
  | r :: rest, p =>
    match logStep p r with
    | none => none
    | some q => logScan rest q

/-- The structural invariant maintained by the engine: the trade log
alternates Open/Close with an Open pending exactly when a position is
held; a flat book carries no margin; and a held position's data is the
last record of the log, an open record of the matching direction whose
margin field is `price × volume × contract_size × margin_ratio`, equal to
the account's margin, with `volume = |holdings|`. -/
def Inv (s : SHFEFuturesBacktest) : Prop :=
  logScan s.trade_records false = some (decide (s.holdings ≠ 0)) ∧
  (s.holdings = 0 → s.margin = 0) ∧
  (s.holdings ≠ 0 →
    match s.trade_records.getLast? with
    | some (TradeRecord.openRec _ sym d p v _ m) =>
        sym = s.symbol ∧ d = dirOf s.holdings ∧ v = |s.holdings| ∧ 0 < v ∧
        m = p * (v : ℚ) * s.contract_size * s.margin_ratio ∧ s.margin = m
    | _ => False)

end SHFEFuturesBacktest

namespace SHFEFuturesBacktest

/-- The conserved ledger quantity: cash plus margin, minus realised
profits, plus commissions paid. -/
def acct (s : SHFEFuturesBacktest) : ℚ :=
  s.cash + s.margin - sumProfits s.trade_records + sumCommissions s.trade_records

/-- A two-bar copper price series whose second close (3) is far below
half a tick (10), so that the open execution price tick-rounds to 0. -/
def cuBars : List Bar := [⟨0, 4⟩, ⟨1, 3⟩]

/-- The copper series extended with a third bar that triggers a close. -/
def cuBars3 : List Bar := [⟨0, 4⟩, ⟨1, 3⟩, ⟨2, 9⟩]

/-- A copper engine with the slippage overridden to 0 through
`set_params`, as the UI slider permits. -/
def s0CU : SHFEFuturesBacktest :=
  set_params (init ("CU8888.XSGE") 1000000) none none (some 0)

/-- A three-bar rebar price series; the datetimes 1, 2, 3 stand for three
different days. -/
def rbBars : List Bar := [⟨1, 1000⟩, ⟨2, 999⟩, ⟨3, 1100⟩]

/-- A rebar engine with all defaults. -/
def s0RB : SHFEFuturesBacktest :=
  set_params (init ("RB8888.XSGE") 1000000) none none none

/-- A default rebar engine carrying a given equity curve, used to probe
the metrics calculator. -/
def plainEngine (ta : List ℚ) : SHFEFuturesBacktest :=
  ⟨"RB8888.XSGE", 1000000, 10, 1, "螺纹钢", 1/10, 1/10000, 2, 1000000, 0, 0, ta, []⟩

/-- The rebar engine state holding 900 short lots opened at 997 on day 2:
the state `run_backtest` reaches on `rbBars` after its first simulated
bar. -/
def sHeld : SHFEFuturesBacktest :=
  ⟨"RB8888.XSGE", 1000000, 10, 1, "螺纹钢", 1/10, 1/10000, 2, 1018027/10, 897300,
    -900, [1000000, 9811027/10],
    [TradeRecord.openRec 2 ("RB8888.XSGE") Dir.short 997 900 (8973/10) 897300]⟩

/-- A sample return series with positive variance. -/
def rsW : List ℚ := [1/10, 3/10]

/-- Re-stamp every record's datetime, leaving all trading data unchanged;
used to state that the close commission ignores the days on which the
position was opened and closed. -/
def withDatetimes (g : ℕ → ℕ) (s : SHFEFuturesBacktest) : SHFEFuturesBacktest :=
  { s with trade_records := s.trade_records.map (TradeRecord.mapDt g) }

@[simp] theorem short_eq_long_iff : (Dir.short = Dir.long) ↔ False := by
  exact ⟨fun h => Dir.noConfusion h, False.elim⟩

@[simp] theorem long_eq_short_iff : (Dir.long = Dir.short) ↔ False := by
  exact ⟨fun h => Dir.noConfusion h, False.elim⟩

theorem logScan_append (l : List TradeRecord) (r : TradeRecord) (p : Bool) :
    logScan (l ++ [r]) p =
      match logScan l p with
      | none => none
      | some q => logStep q r := by
  induction l generalizing p with
  | nil => cases h : logStep p r <;> simp [logScan, h]
  | cons head tail ih =>
      cases h : logStep p head <;> simp [logScan, h, ih]

theorem scanOpenPrice_cons_open (sym : String) (dir : Dir) (dt : ℕ) (p : ℚ)
    (v : ℤ) (c m : ℚ) (rest : List TradeRecord) :
    scanOpenPrice sym dir (TradeRecord.openRec dt sym dir p v c m :: rest) = p := by
  simp [scanOpenPrice]

theorem findOpenPrice_concat_open (l : List TradeRecord) (sym : String)
    (dir : Dir) (dt : ℕ) (p : ℚ) (v : ℤ) (c m : ℚ) :
    findOpenPrice (l ++ [TradeRecord.openRec dt sym dir p v c m]) sym dir = p := by
  simp [findOpenPrice, List.reverse_append, scanOpenPrice]

theorem findOpenPrice_of_getLast (l : List TradeRecord) (sym : String)
    (dir : Dir) (dt : ℕ) (p : ℚ) (v : ℤ) (c m : ℚ)
    (h : l.getLast? = some (TradeRecord.openRec dt sym dir p v c m)) :
    findOpenPrice l sym dir = p := by
  have hne : l ≠ [] := by
    intro he
    simp [he] at h
  have hd : l.dropLast ++ [l.getLast hne] = l := List.dropLast_append_getLast hne
  have hlast : l.getLast hne = TradeRecord.openRec dt sym dir p v c m := by
    have := List.getLast?_eq_getLast l hne
    rw [this] at h
    exact Option.some_injective _ h
  calc findOpenPrice l sym dir
      = findOpenPrice (l.dropLast ++ [TradeRecord.openRec dt sym dir p v c m]) sym dir := by
        rw [← hlast, hd]
    _ = p := findOpenPrice_concat_open _ _ _ _ _ _ _ _

theorem pct_change_length (l : List ℚ) : (pct_change l).length = l.length - 1 := by
  induction l with
  | nil => simp [pct_change]
  | cons a rest ih =>
      cases rest with
      | nil => simp [pct_change]
      | cons b t =>
          simp only [pct_change, List.length_cons] at *
          omega

end SHFEFuturesBacktest


namespace SHFEFuturesBacktest

theorem openPos_of_nonpos (s : SHFEFuturesBacktest) (d : Dir) (price : ℚ)
    (dt : ℕ) (h : openVol s price ≤ 0) : openPos s d price dt = s := by
  simp only [openPos]
  rw [if_pos h]

theorem openPos_of_pos (s : SHFEFuturesBacktest) (d : Dir) (price : ℚ)
    (dt : ℕ) (h : 0 < openVol s price) :
    openPos s d price dt =
      { s with
        cash := s.cash - (openMargin s d price + openCommission s d price)
        margin := s.margin + openMargin s d price
        holdings := if d = Dir.long then openVol s price else -(openVol s price)
        trade_records := s.trade_records ++
          [TradeRecord.openRec dt s.symbol d (openExec s d price)
            (openVol s price) (openCommission s d price) (openMargin s d price)] } := by
  simp only [openPos]
  rw [if_neg (by omega)]

theorem closePos_of_flat (s : SHFEFuturesBacktest) (price : ℚ) (dt : ℕ)
    (h : s.holdings = 0) : closePos s price dt = s := by
  simp only [closePos]
  rw [if_pos h]

theorem closePos_of_held (s : SHFEFuturesBacktest) (price : ℚ) (dt : ℕ)
    (h : s.holdings ≠ 0) :
    closePos s price dt =
      { s with
        cash := s.cash + (s.margin + closeProfit s price - closeCommission s price)
        margin := 0
        holdings := 0
        trade_records := s.trade_records ++
          [TradeRecord.closeRec dt s.symbol (dirOf s.holdings) (closeExec s price)
            |s.holdings| (closeCommission s price) (closeProfit s price)] } := by
  simp only [closePos]
  rw [if_neg h]

theorem closePos_holdings (s : SHFEFuturesBacktest) (price : ℚ) (dt : ℕ) :
    (closePos s price dt).holdings = 0 := by
  by_cases h : s.holdings = 0
  · rw [closePos_of_flat s price dt h, h]
  · rw [closePos_of_held s price dt h]

theorem openPos_total_asset (s : SHFEFuturesBacktest) (d : Dir) (price : ℚ)
    (dt : ℕ) : (openPos s d price dt).total_asset = s.total_asset := by
  by_cases h : openVol s price ≤ 0
  · rw [openPos_of_nonpos s d price dt h]
  · rw [openPos_of_pos s d price dt (by omega)]

theorem closePos_total_asset (s : SHFEFuturesBacktest) (price : ℚ) (dt : ℕ) :
    (closePos s price dt).total_asset = s.total_asset := by
  by_cases h : s.holdings = 0
  · rw [closePos_of_flat s price dt h]
  · rw [closePos_of_held s price dt h]

theorem tradeStep_total_asset (s : SHFEFuturesBacktest) (row : MaRow) :
    (tradeStep s row).total_asset = s.total_asset := by
  unfold tradeStep
  split
  · rw [openPos_total_asset]
    split
    · rw [closePos_total_asset]
    · rfl
  · split
    · rw [openPos_total_asset]
      split
      · rw [closePos_total_asset]
      · rfl
    · rfl

theorem stepRow_total_asset (s : SHFEFuturesBacktest) (row : MaRow) :
    (stepRow s row).total_asset =
      s.total_asset ++ [(tradeStep s row).cash + (tradeStep s row).margin +
        floating_profit (tradeStep s row) row.price] := by
  rw [stepRow, update_asset]
  rw [tradeStep_total_asset]

end SHFEFuturesBacktest


namespace SHFEFuturesBacktest

/-- Introduction rule for `Inv` on an explicit state, with the field
projections already reduced. -/
theorem Inv_of_components (sym : String) (ic cs pt : ℚ) (fn : String)
    (mr cr sl cash mg : ℚ) (hd : ℤ) (ta : List ℚ) (tr : List TradeRecord)
    (h1 : logScan tr false = some (decide (hd ≠ 0)))
    (h2 : hd = 0 → mg = 0)
    (h3 : hd ≠ 0 →
      match tr.getLast? with
      | some (TradeRecord.openRec _ sym' d p v _ m) =>
          sym' = sym ∧ d = dirOf hd ∧ v = |hd| ∧ 0 < v ∧
          m = p * (v : ℚ) * cs * mr ∧ mg = m
      | _ => False) :
    Inv ⟨sym, ic, cs, pt, fn, mr, cr, sl, cash, mg, hd, ta, tr⟩ :=
  ⟨h1, h2, h3⟩

/-- The invariant holds after `_open` when entered flat, which is the only
way `run_backtest` reaches `_open`. -/
theorem Inv_openPos (s : SHFEFuturesBacktest) (d : Dir) (price : ℚ) (dt : ℕ)
    (hInv : Inv s) (h0 : s.holdings = 0) : Inv (openPos s d price dt) := by
  obtain ⟨hlog, hflat, _⟩ := hInv
  have hm0 : s.margin = 0 := hflat h0
  have hlog0 : logScan s.trade_records false = some false := by
    rw [hlog, h0]
    simp
  by_cases hv : openVol s price ≤ 0
  · rw [openPos_of_nonpos s d price dt hv]
    exact ⟨hlog, hflat, fun hz => absurd h0 hz⟩
  · have hv' : 0 < openVol s price := by omega
    rw [openPos_of_pos s d price dt hv']
    cases d with
    | long =>
        apply Inv_of_components
        · rw [logScan_append, hlog0]
          have : (openVol s price ≠ 0) := by omega
          simp [logStep, this]
        · intro hz
          omega
        · intro _
          rw [List.getLast?_concat]
          refine ⟨rfl, ?_, ?_, hv', rfl, by rw [hm0, zero_add]⟩
          · simp [dirOf, hv']
          · simp [abs_of_pos hv']
    | short =>
        apply Inv_of_components
        · rw [logScan_append, hlog0]
          have : (-(openVol s price) ≠ 0) := by omega
          simp [logStep, this]
        · intro hz
          omega
        · intro _
          rw [List.getLast?_concat]
          refine ⟨rfl, ?_, ?_, hv', rfl, by rw [hm0, zero_add]⟩
          · have h2 : ¬(0 < -(openVol s price)) := by omega
            simp [dirOf, h2]
          · simp [abs_neg, abs_of_pos hv']

/-- The invariant is preserved by `_close` unconditionally. -/
theorem Inv_closePos (s : SHFEFuturesBacktest) (price : ℚ) (dt : ℕ)
    (hInv : Inv s) : Inv (closePos s price dt) := by
  by_cases h0 : s.holdings = 0
  · rwa [closePos_of_flat s price dt h0]
  · rw [closePos_of_held s price dt h0]
    obtain ⟨hlog, _, _⟩ := hInv
    apply Inv_of_components
    · rw [logScan_append, hlog]
      have h1 : decide (s.holdings ≠ 0) = true := by simp [h0]
      rw [h1]
      simp [logStep]
    · intro _
      rfl
    · intro hz
      exact absurd rfl hz

/-- `_update_asset` only touches the equity curve, so it preserves the
invariant definitionally. -/
theorem Inv_update_asset (s : SHFEFuturesBacktest) (price : ℚ)
    (hInv : Inv s) : Inv (update_asset s price) := hInv

theorem Inv_tradeStep (s : SHFEFuturesBacktest) (row : MaRow)
    (hInv : Inv s) : Inv (tradeStep s row) := by
  unfold tradeStep
  split
  · by_cases hneg : s.holdings < 0
    · rw [if_pos hneg]
      exact Inv_openPos _ _ _ _ (Inv_closePos _ _ _ hInv) (closePos_holdings _ _ _)
    · rename_i hc
      rw [if_neg hneg]
      exact Inv_openPos _ _ _ _ hInv (by omega)
  · split
    · by_cases hpos : 0 < s.holdings
      · rw [if_pos hpos]
        exact Inv_openPos _ _ _ _ (Inv_closePos _ _ _ hInv) (closePos_holdings _ _ _)
      · rename_i hc hc2
        rw [if_neg hpos]
        exact Inv_openPos _ _ _ _ hInv (by omega)
    · exact hInv

theorem Inv_stepRow (s : SHFEFuturesBacktest) (row : MaRow)
    (hInv : Inv s) : Inv (stepRow s row) :=
  Inv_update_asset _ _ (Inv_tradeStep s row hInv)

theorem Inv_foldl (rows : List MaRow) (s : SHFEFuturesBacktest)
    (hInv : Inv s) : Inv (rows.foldl stepRow s) := by
  induction rows generalizing s with
  | nil => exact hInv
  | cons r rest ih => exact ih _ (Inv_stepRow s r hInv)

/-- The invariant holds at construction and after `set_params`. -/
theorem Inv_start (sym : String) (cap : ℚ) (mr? cr? sl? : Option ℚ) :
    Inv (set_params (init sym cap) mr? cr? sl?) :=
  ⟨rfl, fun _ => rfl, fun hz => absurd rfl hz⟩

end SHFEFuturesBacktest

namespace SHFEFuturesBacktest

theorem sumProfits_concat (l : List TradeRecord) (r : TradeRecord) :
    sumProfits (l ++ [r]) = sumProfits l + TradeRecord.profit r := by
  simp [sumProfits]

theorem sumCommissions_concat (l : List TradeRecord) (r : TradeRecord) :
    sumCommissions (l ++ [r]) = sumCommissions l + TradeRecord.commission r := by
  simp [sumCommissions]

theorem acct_openPos (s : SHFEFuturesBacktest) (d : Dir) (price : ℚ) (dt : ℕ) :
    acct (openPos s d price dt) = acct s := by
  by_cases hv : openVol s price ≤ 0
  · rw [openPos_of_nonpos s d price dt hv]
  · rw [openPos_of_pos s d price dt (by omega)]
    simp only [acct, sumProfits_concat, sumCommissions_concat,
      TradeRecord.profit, TradeRecord.commission]
    ring

theorem acct_closePos (s : SHFEFuturesBacktest) (price : ℚ) (dt : ℕ) :
    acct (closePos s price dt) = acct s := by
  by_cases h0 : s.holdings = 0
  · rw [closePos_of_flat s price dt h0]
  · rw [closePos_of_held s price dt h0]
    simp only [acct, sumProfits_concat, sumCommissions_concat,
      TradeRecord.profit, TradeRecord.commission]
    ring

theorem acct_update_asset (s : SHFEFuturesBacktest) (price : ℚ) :
    acct (update_asset s price) = acct s := rfl

theorem acct_tradeStep (s : SHFEFuturesBacktest) (row : MaRow) :
    acct (tradeStep s row) = acct s := by
  unfold tradeStep
  split
  · rw [acct_openPos]
    split
    · rw [acct_closePos]
    · rfl
  · split
    · rw [acct_openPos]
      split
      · rw [acct_closePos]
      · rfl
    · rfl

theorem acct_stepRow (s : SHFEFuturesBacktest) (row : MaRow) :
    acct (stepRow s row) = acct s := by
  rw [stepRow, acct_update_asset, acct_tradeStep]

theorem acct_foldl (rows : List MaRow) (s : SHFEFuturesBacktest) :
    acct (rows.foldl stepRow s) = acct s := by
  induction rows generalizing s with
  | nil => rfl
  | cons r rest ih => rw [List.foldl_cons, ih, acct_stepRow]

theorem acct_start (sym : String) (cap : ℚ) (mr? cr? sl? : Option ℚ) :
    acct (set_params (init sym cap) mr? cr? sl?) = cap := by
  simp [acct, set_params, init, sumProfits, sumCommissions]

/-- The floating profit only reads the trading fields, which
`_update_asset` leaves unchanged. -/
theorem floating_profit_update_asset (s : SHFEFuturesBacktest) (p q : ℚ) :
    floating_profit (update_asset s p) q = floating_profit s q := rfl

/-- Flat book, no floating profit. -/
theorem floating_profit_of_flat (s : SHFEFuturesBacktest) (price : ℚ)
    (h : s.holdings = 0) : floating_profit s price = 0 := by
  rw [floating_profit, if_neg]
  intro hc
  exact hc.1 h

theorem foldl_total_asset_append (rows : List MaRow) (s : SHFEFuturesBacktest) :
    ∃ t : List ℚ, (rows.foldl stepRow s).total_asset = s.total_asset ++ t ∧
      t.length = rows.length := by
  induction rows generalizing s with
  | nil => exact ⟨[], by simp⟩
  | cons r rest ih =>
      obtain ⟨t, ht, hlen⟩ := ih (stepRow s r)
      refine ⟨((tradeStep s r).cash + (tradeStep s r).margin +
        floating_profit (tradeStep s r) r.price) :: t, ?_, by simp [hlen]⟩
      rw [List.foldl_cons, ht, stepRow_total_asset]
      simp

end SHFEFuturesBacktest

namespace SHFEFuturesBacktest

/-- After a non-empty sequence of bars, the last point of the equity curve
is exactly `cash + margin + floating_profit` of the final state at the
final bar's close. -/
theorem last_equity (rows : List MaRow) (s : SHFEFuturesBacktest)
    (h : rows ≠ []) :
    ((rows.foldl stepRow s).total_asset).getLastD 0 =
      (rows.foldl stepRow s).cash + (rows.foldl stepRow s).margin +
        floating_profit (rows.foldl stepRow s) (rows.getLastD ⟨0, 0, 0, 0⟩).price := by
  induction rows using List.reverseRecOn with
  | nil => exact absurd rfl h
  | append_singleton t r _ =>
      rw [List.foldl_append, List.foldl_cons, List.foldl_nil]
      rw [List.getLastD_concat]
      rw [stepRow_total_asset, List.getLastD_concat]
      rw [stepRow, floating_profit_update_asset]
      rfl

end SHFEFuturesBacktest

namespace SHFEFuturesBacktest

/-- C1: Ledger conservation.  For every symbol, every configuration set
through `set_params`, and every bar sequence, the final equity value
minus the initial capital equals the sum of realised profits over all
close trade records, minus the sum of all commissions on opens and
closes, plus the unrealised (floating) profit of any position still open
at the last simulated bar — exactly, in exact arithmetic. -/
theorem ledger_conservation (sym : String) (cap : ℚ) (mr? cr? sl? : Option ℚ)
    (bars : List Bar) (fast slow : ℕ) :
    (run_backtest (set_params (init sym cap) mr? cr? sl?) bars fast slow).total_asset.getLastD 0
        - cap =
      sumProfits (run_backtest (set_params (init sym cap) mr? cr? sl?) bars fast slow).trade_records
        - sumCommissions (run_backtest (set_params (init sym cap) mr? cr? sl?) bars fast slow).trade_records
        + floating_profit (run_backtest (set_params (init sym cap) mr? cr? sl?) bars fast slow)
            ((calculate_ma bars fast slow).getLastD ⟨0, 0, 0, 0⟩).price := by
  by_cases h : calculate_ma bars fast slow = []
  · rw [run_backtest, h]
    simp only [List.foldl_nil]
    rw [floating_profit_of_flat _ _ rfl]
    have h1 : (set_params (init sym cap) mr? cr? sl?).total_asset = [cap] := rfl
    have h2 : (set_params (init sym cap) mr? cr? sl?).trade_records = [] := rfl
    rw [h1, h2]
    simp [sumProfits, sumCommissions]
  · have hacct : acct (run_backtest (set_params (init sym cap) mr? cr? sl?) bars fast slow)
        = cap := by
      rw [run_backtest, acct_foldl, acct_start]
    have hlast := last_equity (calculate_ma bars fast slow)
        (set_params (init sym cap) mr? cr? sl?) h
    rw [run_backtest] at hacct ⊢
    rw [hlast]
    unfold acct at hacct
    linarith

end SHFEFuturesBacktest

namespace SHFEFuturesBacktest

theorem calculate_ma_length (bars : List Bar) (fast slow : ℕ) :
    (calculate_ma bars fast slow).length = bars.length - (max fast slow - 1) := by
  simp [calculate_ma]

/-- Unpack the held-position part of the invariant. -/
theorem Inv_getLast_open (s : SHFEFuturesBacktest) (hInv : Inv s)
    (hh : s.holdings ≠ 0) :
    ∃ dt p v c, s.trade_records.getLast? =
      some (TradeRecord.openRec dt s.symbol (dirOf s.holdings) p v c
        (p * (v : ℚ) * s.contract_size * s.margin_ratio)) ∧
      v = |s.holdings| ∧ 0 < v ∧
      s.margin = p * (v : ℚ) * s.contract_size * s.margin_ratio := by
  obtain ⟨_, _, h3⟩ := hInv
  have h := h3 hh
  cases hg : s.trade_records.getLast? with
  | none => rw [hg] at h; exact h.elim
  | some r =>
      rw [hg] at h
      cases r with
      | closeRec dt sym d p v c pr => exact h.elim
      | openRec dt sym d p v c m =>
          obtain ⟨hs, hd, hv, hv0, hm, hmg⟩ := h
          subst hs
          subst hd
          subst hm
          exact ⟨dt, p, v, c, rfl, hv, hv0, hmg⟩

/-- C7: For a valid configuration (`1 ≤ fast ≤ slow`) and a bar sequence
of length at least `slow`, the equity curve has exactly
`(N − slow + 1) + 1` points: the `slow − 1` leading bars without a slow
moving average are removed from the simulated sequence entirely, the
curve starts at the initial capital, and exactly one equity point is
appended per remaining bar. -/
theorem equity_curve_length (sym : String) (cap : ℚ) (mr? cr? sl? : Option ℚ)
    (bars : List Bar) (fast slow : ℕ)
    (h1 : 1 ≤ fast) (h2 : fast ≤ slow) (h3 : slow ≤ bars.length) :
    (run_backtest (set_params (init sym cap) mr? cr? sl?) bars fast slow).total_asset.length
        = (bars.length - slow + 1) + 1 ∧
    (run_backtest (set_params (init sym cap) mr? cr? sl?) bars fast slow).total_asset.headD 0
        = cap := by
  obtain ⟨t, ht, hlen⟩ := foldl_total_asset_append (calculate_ma bars fast slow)
    (set_params (init sym cap) mr? cr? sl?)
  have h5 : (set_params (init sym cap) mr? cr? sl?).total_asset = [cap] := rfl
  rw [run_backtest]
  constructor
  · rw [ht, h5, List.length_append, hlen, calculate_ma_length, max_eq_right h2]
    simp only [List.length_singleton]
    omega
  · rw [ht, h5]
    rfl

end SHFEFuturesBacktest

namespace SHFEFuturesBacktest

theorem stepRow_holdings (s : SHFEFuturesBacktest) (row : MaRow) :
    (stepRow s row).holdings = (tradeStep s row).holdings := rfl

theorem stepRow_trade_records (s : SHFEFuturesBacktest) (row : MaRow) :
    (stepRow s row).trade_records = (tradeStep s row).trade_records := rfl

theorem openPos_trade_records_shape (s : SHFEFuturesBacktest) (d : Dir)
    (price : ℚ) (dt : ℕ) :
    ∃ rest : List TradeRecord,
      (openPos s d price dt).trade_records = s.trade_records ++ rest := by
  by_cases hv : openVol s price ≤ 0
  · rw [openPos_of_nonpos s d price dt hv]
    exact ⟨[], by simp⟩
  · rw [openPos_of_pos s d price dt (by omega)]
    exact ⟨[TradeRecord.openRec dt s.symbol d (openExec s d price) (openVol s price)
      (openCommission s d price) (openMargin s d price)], rfl⟩

/-- C2: In every state reachable by `run_backtest` (state after the first
`k` simulated bars, for any `k`) the trade log alternates opens and
closes, so it never contains two Open records without a Close between
them; a non-zero holdings value means the log ends with an Open record of
the matching direction (positive ↦ long, negative ↦ short) whose volume
is `|holdings|`; and within one bar the holdings can only change sign if
a Close record is appended first (before any further record). -/
theorem single_open_position (sym : String) (cap : ℚ) (mr? cr? sl? : Option ℚ)
    (bars : List Bar) (fast slow k : ℕ) (r : MaRow) :
    (logScan (((calculate_ma bars fast slow).take k).foldl stepRow
        (set_params (init sym cap) mr? cr? sl?)).trade_records false).isSome = true ∧
    ((((calculate_ma bars fast slow).take k).foldl stepRow
        (set_params (init sym cap) mr? cr? sl?)).holdings ≠ 0 →
      ∃ dt p v c m,
        (((calculate_ma bars fast slow).take k).foldl stepRow
            (set_params (init sym cap) mr? cr? sl?)).trade_records.getLast? =
          some (TradeRecord.openRec dt
            (((calculate_ma bars fast slow).take k).foldl stepRow
              (set_params (init sym cap) mr? cr? sl?)).symbol
            (dirOf (((calculate_ma bars fast slow).take k).foldl stepRow
              (set_params (init sym cap) mr? cr? sl?)).holdings) p v c m) ∧
        v = |(((calculate_ma bars fast slow).take k).foldl stepRow
            (set_params (init sym cap) mr? cr? sl?)).holdings|) ∧
    (0 < (((calculate_ma bars fast slow).take k).foldl stepRow
        (set_params (init sym cap) mr? cr? sl?)).holdings →
      (stepRow (((calculate_ma bars fast slow).take k).foldl stepRow
        (set_params (init sym cap) mr? cr? sl?)) r).holdings < 0 →
      ∃ rest dt p v c pr,
        (stepRow (((calculate_ma bars fast slow).take k).foldl stepRow
          (set_params (init sym cap) mr? cr? sl?)) r).trade_records =
        (((calculate_ma bars fast slow).take k).foldl stepRow
          (set_params (init sym cap) mr? cr? sl?)).trade_records ++
          TradeRecord.closeRec dt
            (((calculate_ma bars fast slow).take k).foldl stepRow
              (set_params (init sym cap) mr? cr? sl?)).symbol
            (dirOf (((calculate_ma bars fast slow).take k).foldl stepRow
              (set_params (init sym cap) mr? cr? sl?)).holdings) p v c pr :: rest) ∧
    ((((calculate_ma bars fast slow).take k).foldl stepRow
        (set_params (init sym cap) mr? cr? sl?)).holdings < 0 →
      0 < (stepRow (((calculate_ma bars fast slow).take k).foldl stepRow
        (set_params (init sym cap) mr? cr? sl?)) r).holdings →
      ∃ rest dt p v c pr,
        (stepRow (((calculate_ma bars fast slow).take k).foldl stepRow
          (set_params (init sym cap) mr? cr? sl?)) r).trade_records =
        (((calculate_ma bars fast slow).take k).foldl stepRow
          (set_params (init sym cap) mr? cr? sl?)).trade_records ++
          TradeRecord.closeRec dt
            (((calculate_ma bars fast slow).take k).foldl stepRow
              (set_params (init sym cap) mr? cr? sl?)).symbol
            (dirOf (((calculate_ma bars fast slow).take k).foldl stepRow
              (set_params (init sym cap) mr? cr? sl?)).holdings) p v c pr :: rest) := by
  set s := ((calculate_ma bars fast slow).take k).foldl stepRow
    (set_params (init sym cap) mr? cr? sl?) with hs
  have hInv : Inv s := Inv_foldl _ _ (Inv_start sym cap mr? cr? sl?)
  refine ⟨by rw [hInv.1]; rfl, ?_, ?_, ?_⟩
  · intro hh
    obtain ⟨dt, p, v, c, hg, hv, _, _⟩ := Inv_getLast_open s hInv hh
    exact ⟨dt, p, v, c, _, hg, hv⟩
  · intro hpos hneg
    rw [stepRow_holdings] at hneg
    rw [stepRow_trade_records]
    by_cases hc1 : r.ma_slow < r.ma_fast ∧ s.holdings ≤ 0
    · omega
    · by_cases hc2 : r.ma_fast < r.ma_slow ∧ 0 ≤ s.holdings
      · have hts : tradeStep s r =
            openPos (closePos s r.price r.datetime) Dir.short r.price r.datetime := by
          unfold tradeStep
          rw [if_neg hc1, if_pos hc2, if_pos hpos]
        rw [hts]
        obtain ⟨rest, hrest⟩ :=
          openPos_trade_records_shape (closePos s r.price r.datetime) Dir.short r.price r.datetime
        rw [hrest, closePos_of_held s r.price r.datetime (by omega)]
        exact ⟨rest, r.datetime, closeExec s r.price, |s.holdings|,
          closeCommission s r.price, closeProfit s r.price, by simp⟩
      · exfalso
        have hts : tradeStep s r = s := by
          unfold tradeStep
          rw [if_neg hc1, if_neg hc2]
        rw [hts] at hneg
        omega
  · intro hneg hpos
    rw [stepRow_holdings] at hpos
    rw [stepRow_trade_records]
    by_cases hc1 : r.ma_slow < r.ma_fast ∧ s.holdings ≤ 0
    · have hts : tradeStep s r =
          openPos (closePos s r.price r.datetime) Dir.long r.price r.datetime := by
        unfold tradeStep
        rw [if_pos hc1, if_pos hneg]
      rw [hts]
      obtain ⟨rest, hrest⟩ :=
        openPos_trade_records_shape (closePos s r.price r.datetime) Dir.long r.price r.datetime
      rw [hrest, closePos_of_held s r.price r.datetime (by omega)]
      exact ⟨rest, r.datetime, closeExec s r.price, |s.holdings|,
        closeCommission s r.price, closeProfit s r.price, by simp⟩
    · by_cases hc2 : r.ma_fast < r.ma_slow ∧ 0 ≤ s.holdings
      · omega
      · exfalso
        have hts : tradeStep s r = s := by
          unfold tradeStep
          rw [if_neg hc1, if_neg hc2]
        rw [hts] at hpos
        omega

end SHFEFuturesBacktest

namespace SHFEFuturesBacktest

theorem hasRB_cu : hasRB ("CU8888.XSGE") = false := by decide

theorem hasRB_rb : hasRB ("RB8888.XSGE") = true := by decide

theorem cuRows : calculate_ma cuBars 1 2 = [⟨1, 3, 3, 7/2⟩] := by
  norm_num [calculate_ma, cuBars, List.range_succ, maRow, rollMean]

theorem cuRows3 : calculate_ma cuBars3 1 2 = [⟨1, 3, 3, 7/2⟩, ⟨2, 9, 9, 6⟩] := by
  norm_num [calculate_ma, cuBars3, List.range_succ, maRow, rollMean]

theorem s0CU_eq : s0CU = ⟨"CU8888.XSGE", 1000000, 5, 10, "铜", 1/10, 1/10000, 0,
    1000000, 0, 0, [1000000], []⟩ := rfl

/-- First simulated copper bar: a short of 600000 lots is opened at an
execution price that tick-rounds to 0, so no margin is reserved. -/
theorem cuStep1 : stepRow
    ⟨"CU8888.XSGE", 1000000, 5, 10, "铜", 1/10, 1/10000, 0,
      1000000, 0, 0, [1000000], []⟩ ⟨1, 3, 3, 7/2⟩ =
    ⟨"CU8888.XSGE", 1000000, 5, 10, "铜", 1/10, 1/10000, 0,
      999995, 0, -600000, [1000000, 999995],
      [TradeRecord.openRec 1 ("CU8888.XSGE") Dir.short 0 600000 5 0]⟩ := by
  norm_num [stepRow, tradeStep, openPos, openVol, openExec, openCommission,
    openMargin, tickRound, pyInt, pyRound, update_asset, floating_profit,
    findOpenPrice, scanOpenPrice, dirOf]

/-- Second simulated copper bar: the short is closed; the backward scan
returns the recorded open price 0, so `_close` substitutes the bar's own
close 9 as the open price. -/
theorem cuStep2 : stepRow
    ⟨"CU8888.XSGE", 1000000, 5, 10, "铜", 1/10, 1/10000, 0,
      999995, 0, -600000, [1000000, 999995],
      [TradeRecord.openRec 1 ("CU8888.XSGE") Dir.short 0 600000 5 0]⟩ ⟨2, 9, 9, 6⟩ =
    ⟨"CU8888.XSGE", 1000000, 5, 10, "铜", 1/10, 1/10000, 0,
      -2003005, 0, 0, [1000000, 999995, -2003005],
      [TradeRecord.openRec 1 ("CU8888.XSGE") Dir.short 0 600000 5 0,
       TradeRecord.closeRec 2 ("CU8888.XSGE") Dir.short 10 600000 3000 (-3000000)]⟩ := by
  norm_num [stepRow, tradeStep, openPos, openVol, openExec, openCommission,
    openMargin, tickRound, pyInt, pyRound, update_asset, floating_profit,
    findOpenPrice, scanOpenPrice, dirOf, closePos, closeExec, closeRate,
    closeCommission, closeOpenPrice, closeProfit, hasRB_cu, List.cons_ne_nil]

theorem cuRun_eq : run_backtest s0CU cuBars 1 2 =
    ⟨"CU8888.XSGE", 1000000, 5, 10, "铜", 1/10, 1/10000, 0,
      999995, 0, -600000, [1000000, 999995],
      [TradeRecord.openRec 1 ("CU8888.XSGE") Dir.short 0 600000 5 0]⟩ := by
  rw [run_backtest, cuRows, List.foldl_cons, List.foldl_nil, s0CU_eq, cuStep1]

theorem cuRun3_eq : run_backtest s0CU cuBars3 1 2 =
    ⟨"CU8888.XSGE", 1000000, 5, 10, "铜", 1/10, 1/10000, 0,
      -2003005, 0, 0, [1000000, 999995, -2003005],
      [TradeRecord.openRec 1 ("CU8888.XSGE") Dir.short 0 600000 5 0,
       TradeRecord.closeRec 2 ("CU8888.XSGE") Dir.short 10 600000 3000 (-3000000)]⟩ := by
  rw [run_backtest, cuRows3, List.foldl_cons, List.foldl_cons, List.foldl_nil,
    s0CU_eq, cuStep1, cuStep2]

theorem rbRows : calculate_ma rbBars 1 2 =
    [⟨2, 999, 999, 1999/2⟩, ⟨3, 1100, 1100, 2099/2⟩] := by
  norm_num [calculate_ma, rbBars, List.range_succ, maRow, rollMean]

theorem s0RB_eq : s0RB = ⟨"RB8888.XSGE", 1000000, 10, 1, "螺纹钢", 1/10, 1/10000, 2,
    1000000, 0, 0, [1000000], []⟩ := by
  norm_num [s0RB, set_params, init,
    show futures_specs ("RB8888.XSGE".take 2) = some (10, 1, "螺纹钢") from rfl]

/-- First simulated rebar bar: a short of 900 lots opened at 997. -/
theorem rbStep1 : stepRow
    ⟨"RB8888.XSGE", 1000000, 10, 1, "螺纹钢", 1/10, 1/10000, 2,
      1000000, 0, 0, [1000000], []⟩ ⟨2, 999, 999, 1999/2⟩ = sHeld := by
  norm_num [stepRow, tradeStep, openPos, openVol, openExec, openCommission,
    openMargin, tickRound, pyInt, pyRound, update_asset, floating_profit,
    findOpenPrice, scanOpenPrice, dirOf, sHeld]

/-- Second simulated rebar bar: the short opened on day 2 is closed on
day 3, with the rebar commission surcharge applied, and a long of 40 lots
is opened on the same bar. -/
theorem rbStep2 : stepRow sHeld ⟨3, 1100, 1100, 2099/2⟩ =
    ⟨"RB8888.XSGE", 1000000, 10, 1, "螺纹钢", 1/10, 1/10000, 2,
      250981/50, 44080, 40, [1000000, 9811027/10, 2414981/50],
      [TradeRecord.openRec 2 ("RB8888.XSGE") Dir.short 997 900 (8973/10) 897300,
       TradeRecord.closeRec 3 ("RB8888.XSGE") Dir.short 1102 900 4959 (-945000),
       TradeRecord.openRec 3 ("RB8888.XSGE") Dir.long 1102 40 (1102/25) 44080]⟩ := by
  norm_num [stepRow, tradeStep, openPos, openVol, openExec, openCommission,
    openMargin, tickRound, pyInt, pyRound, update_asset, floating_profit,
    findOpenPrice, scanOpenPrice, dirOf, sHeld, closePos, closeExec, closeRate,
    closeCommission, closeOpenPrice, closeProfit, hasRB_rb, List.cons_ne_nil]

theorem rbState1 : ((calculate_ma rbBars 1 2).take 1).foldl stepRow s0RB = sHeld := by
  rw [rbRows]
  simp only [List.take_succ_cons, List.take_zero, List.foldl_cons, List.foldl_nil]
  rw [s0RB_eq, rbStep1]

theorem rbRun_eq : run_backtest s0RB rbBars 1 2 =
    ⟨"RB8888.XSGE", 1000000, 10, 1, "螺纹钢", 1/10, 1/10000, 2,
      250981/50, 44080, 40, [1000000, 9811027/10, 2414981/50],
      [TradeRecord.openRec 2 ("RB8888.XSGE") Dir.short 997 900 (8973/10) 897300,
       TradeRecord.closeRec 3 ("RB8888.XSGE") Dir.short 1102 900 4959 (-945000),
       TradeRecord.openRec 3 ("RB8888.XSGE") Dir.long 1102 40 (1102/25) 44080]⟩ := by
  rw [run_backtest, rbRows, List.foldl_cons, List.foldl_cons, List.foldl_nil,
    s0RB_eq, rbStep1, rbStep2]

end SHFEFuturesBacktest

namespace SHFEFuturesBacktest

/-- C3 (amended): Whenever `_close` executes on a held position whose
open record is the last entry of the trade log and carries a nonzero
price `pO`, the backward scan yields exactly `pO`; the realised profit is
`(exec − pO) × |holdings| × contract_size` for a long and
`(pO − exec) × |holdings| × contract_size` for a short; and the effects
are exactly: cash grows by the whole margin plus profit minus commission,
the margin and holdings reset to zero, and exactly one close record is
appended.  (The hypothesis `pO ≠ 0` is forced by the code: when the
recorded open price is 0 — possible when tick rounding collapses the
execution price to zero — `_close` silently substitutes the current bar's
close for the open price and the profit deviates from this formula.) -/
theorem close_effects (s : SHFEFuturesBacktest) (price : ℚ) (dt dtO : ℕ)
    (pO : ℚ) (vO : ℤ) (cO mO : ℚ)
    (hh : s.holdings ≠ 0)
    (hlast : s.trade_records.getLast? =
      some (TradeRecord.openRec dtO s.symbol (dirOf s.holdings) pO vO cO mO))
    (hp : pO ≠ 0) :
    findOpenPrice s.trade_records s.symbol (dirOf s.holdings) = pO ∧
    closeProfit s price = (if 0 < s.holdings
      then (closeExec s price - pO) * (|s.holdings| : ℚ) * s.contract_size
      else (pO - closeExec s price) * (|s.holdings| : ℚ) * s.contract_size) ∧
    (closePos s price dt).cash =
      s.cash + (s.margin + closeProfit s price - closeCommission s price) ∧
    (closePos s price dt).margin = 0 ∧
    (closePos s price dt).holdings = 0 ∧
    (closePos s price dt).trade_records = s.trade_records ++
      [TradeRecord.closeRec dt s.symbol (dirOf s.holdings) (closeExec s price)
        |s.holdings| (closeCommission s price) (closeProfit s price)] := by
  have hscan : findOpenPrice s.trade_records s.symbol (dirOf s.holdings) = pO :=
    findOpenPrice_of_getLast _ _ _ _ _ _ _ _ hlast
  have hop : closeOpenPrice s price = pO := by
    rw [closeOpenPrice, hscan, if_neg hp]
  refine ⟨hscan, ?_, ?_, ?_, ?_, ?_⟩
  · rw [closeProfit, hop]
    by_cases hpos : 0 < s.holdings
    · rw [if_pos hpos, if_pos (by rw [dirOf, if_pos hpos])]
    · rw [if_neg hpos, if_neg (by rw [dirOf, if_neg hpos]; exact fun h => Dir.noConfusion h)]
  · rw [closePos_of_held s price dt hh]
  · rw [closePos_of_held s price dt hh]
  · rw [closePos_of_held s price dt hh]
  · rw [closePos_of_held s price dt hh]

/-- C3 witness: the rebar state holding 900 short lots opened at 997
satisfies all the hypotheses of the amended close theorem, and closing at
bar price 1100 realises the stated effects. -/
theorem close_effects_witness :
    sHeld.holdings ≠ 0 ∧ (997 : ℚ) ≠ 0 ∧
    (findOpenPrice sHeld.trade_records sHeld.symbol (dirOf sHeld.holdings) = 997 ∧
     closeProfit sHeld 1100 = (if 0 < sHeld.holdings
       then (closeExec sHeld 1100 - 997) * (|sHeld.holdings| : ℚ) * sHeld.contract_size
       else (997 - closeExec sHeld 1100) * (|sHeld.holdings| : ℚ) * sHeld.contract_size) ∧
     (closePos sHeld 1100 3).cash =
       sHeld.cash + (sHeld.margin + closeProfit sHeld 1100 - closeCommission sHeld 1100) ∧
     (closePos sHeld 1100 3).margin = 0 ∧
     (closePos sHeld 1100 3).holdings = 0 ∧
     (closePos sHeld 1100 3).trade_records = sHeld.trade_records ++
       [TradeRecord.closeRec 3 sHeld.symbol (dirOf sHeld.holdings) (closeExec sHeld 1100)
         |sHeld.holdings| (closeCommission sHeld 1100) (closeProfit sHeld 1100)]) := by
  have hdir : dirOf sHeld.holdings = Dir.short := by decide
  have hh : sHeld.holdings ≠ 0 := by decide
  have hlast : sHeld.trade_records.getLast? =
      some (TradeRecord.openRec 2 sHeld.symbol (dirOf sHeld.holdings) 997 900
        (8973/10) 897300) := by
    rw [hdir]
    rfl
  exact ⟨hh, by norm_num,
    close_effects sHeld 1100 3 2 997 900 (8973/10) 897300 hh hlast (by norm_num)⟩

/-- C3 counterexample: on the copper run with slippage 0, the open
record of the current position carries price 0; at the close the claimed
formula `(p_open − exec) × v × mult = (0 − 10) × 600000 × 5 = −30000000`,
but the profit the code realises (and records) is −3000000, because
`_close` replaced the open price 0 with the bar's close 9. -/
theorem close_profit_openprice_zero_cex :
    (run_backtest s0CU cuBars3 1 2).trade_records =
      [TradeRecord.openRec 1 ("CU8888.XSGE") Dir.short 0 600000 5 0,
       TradeRecord.closeRec 2 ("CU8888.XSGE") Dir.short 10 600000 3000 (-3000000)] ∧
    ((0 : ℚ) - 10) * 600000 * 5 = -30000000 ∧
    (-3000000 : ℚ) ≠ -30000000 := by
  refine ⟨by rw [cuRun3_eq], by norm_num, by norm_num⟩

end SHFEFuturesBacktest

namespace SHFEFuturesBacktest

/-- C4: On an open decision the position size is exactly
`⌊0.9 × cash / (price × contract_size × margin_ratio)⌋` (the source's
`int(...)` truncation coincides with the floor whenever an open actually
fires, and both land in the no-op branch otherwise), and a non-positive
size is a silent no-op: the state is returned entirely unchanged, with no
record appended and no error.  The positivity hypothesis marks the domain
on which the Python code runs at all: with a zero denominator it would
raise `ZeroDivisionError`. -/
theorem open_sizing (s : SHFEFuturesBacktest) (d : Dir) (price : ℚ) (dt : ℕ)
    (_hmpc : 0 < price * s.contract_size * s.margin_ratio) :
    (⌊s.cash * (9/10) / (price * s.contract_size * s.margin_ratio)⌋ ≤ 0 →
      openPos s d price dt = s) ∧
    (0 < ⌊s.cash * (9/10) / (price * s.contract_size * s.margin_ratio)⌋ →
      openVol s price = ⌊s.cash * (9/10) / (price * s.contract_size * s.margin_ratio)⌋ ∧
      (openPos s d price dt).holdings =
        (if d = Dir.long
          then ⌊s.cash * (9/10) / (price * s.contract_size * s.margin_ratio)⌋
          else -⌊s.cash * (9/10) / (price * s.contract_size * s.margin_ratio)⌋) ∧
      (openPos s d price dt).trade_records = s.trade_records ++
        [TradeRecord.openRec dt s.symbol d (openExec s d price)
          ⌊s.cash * (9/10) / (price * s.contract_size * s.margin_ratio)⌋
          (openCommission s d price) (openMargin s d price)]) := by
  rcases le_or_lt 0 (s.cash * (9/10) / (price * s.contract_size * s.margin_ratio)) with hq | hq
  · have hov : openVol s price =
        ⌊s.cash * (9/10) / (price * s.contract_size * s.margin_ratio)⌋ := by
      rw [openVol, pyInt, if_pos hq]
    constructor
    · intro hle
      exact openPos_of_nonpos s d price dt (by rw [hov]; exact hle)
    · intro hpos
      have hvpos : 0 < openVol s price := by rw [hov]; exact hpos
      refine ⟨hov, ?_, ?_⟩
      · rw [openPos_of_pos s d price dt hvpos, ← hov]
      · rw [openPos_of_pos s d price dt hvpos, ← hov]
  · have hfn : ⌊s.cash * (9/10) / (price * s.contract_size * s.margin_ratio)⌋ < 0 := by
      have := Int.floor_le (s.cash * (9/10) / (price * s.contract_size * s.margin_ratio))
      have hc : (⌊s.cash * (9/10) / (price * s.contract_size * s.margin_ratio)⌋ : ℚ) < 0 :=
        lt_of_le_of_lt this hq
      exact_mod_cast hc
    have hov : openVol s price ≤ 0 := by
      rw [openVol, pyInt, if_neg (by exact not_le.mpr hq)]
      have : (0 : ℤ) ≤ ⌊-(s.cash * (9/10) / (price * s.contract_size * s.margin_ratio))⌋ :=
        Int.floor_nonneg.mpr (by linarith)
      omega
    exact ⟨fun _ => openPos_of_nonpos s d price dt hov, fun hpos => absurd hpos (by omega)⟩

/-- C4 witness: a default rebar engine with a million yuan of cash at
price 1000 sizes the open at `⌊900⌋ = 900` lots and appends exactly one
open record. -/
theorem open_sizing_witness :
    (0 : ℚ) < 1000 * (plainEngine [1000000]).contract_size * (plainEngine [1000000]).margin_ratio ∧
    0 < ⌊(plainEngine [1000000]).cash * (9/10) /
      (1000 * (plainEngine [1000000]).contract_size * (plainEngine [1000000]).margin_ratio)⌋ ∧
    (openVol (plainEngine [1000000]) 1000 =
        ⌊(plainEngine [1000000]).cash * (9/10) /
          (1000 * (plainEngine [1000000]).contract_size * (plainEngine [1000000]).margin_ratio)⌋ ∧
      (openPos (plainEngine [1000000]) Dir.long 1000 0).holdings =
        (if Dir.long = Dir.long
          then ⌊(plainEngine [1000000]).cash * (9/10) /
            (1000 * (plainEngine [1000000]).contract_size * (plainEngine [1000000]).margin_ratio)⌋
          else -⌊(plainEngine [1000000]).cash * (9/10) /
            (1000 * (plainEngine [1000000]).contract_size * (plainEngine [1000000]).margin_ratio)⌋) ∧
      (openPos (plainEngine [1000000]) Dir.long 1000 0).trade_records =
        (plainEngine [1000000]).trade_records ++
        [TradeRecord.openRec 0 (plainEngine [1000000]).symbol Dir.long
          (openExec (plainEngine [1000000]) Dir.long 1000)
          ⌊(plainEngine [1000000]).cash * (9/10) /
            (1000 * (plainEngine [1000000]).contract_size * (plainEngine [1000000]).margin_ratio)⌋
          (openCommission (plainEngine [1000000]) Dir.long 1000)
          (openMargin (plainEngine [1000000]) Dir.long 1000)]) := by
  have h1 : (0 : ℚ) < 1000 * (plainEngine [1000000]).contract_size *
      (plainEngine [1000000]).margin_ratio := by
    norm_num [plainEngine]
  have h2 : 0 < ⌊(plainEngine [1000000]).cash * (9/10) /
      (1000 * (plainEngine [1000000]).contract_size * (plainEngine [1000000]).margin_ratio)⌋ := by
    norm_num [plainEngine]
  exact ⟨h1, h2, (open_sizing (plainEngine [1000000]) Dir.long 1000 0 h1).2 h2⟩

end SHFEFuturesBacktest

namespace SHFEFuturesBacktest

/-- C5 (amended): Construction never raises and never validates.  The
constructor stores any initial capital — including non-positive values —
verbatim, and `set_params` stores any margin ratio, commission rate and
slippage — including negative ones — verbatim.  (The moving-average
windows are not constructor inputs at all: they are arguments of
`run_backtest` and are equally unvalidated.) -/
theorem init_accepts_any_configuration (sym : String) (cap mr cr sl : ℚ) :
    (init sym cap).cash = cap ∧
    (init sym cap).initial_capital = cap ∧
    (init sym cap).total_asset = [cap] ∧
    (set_params (init sym cap) (some mr) (some cr) (some sl)).margin_ratio = mr ∧
    (set_params (init sym cap) (some mr) (some cr) (some sl)).commission_rate = cr ∧
    (set_params (init sym cap) (some mr) (some cr) (some sl)).slippage = sl :=
  ⟨rfl, rfl, rfl, rfl, rfl, rfl⟩

/-- C5 counterexample: a negative initial capital and negative rates are
accepted silently — construction returns a fully initialised engine
instead of raising a configuration error. -/
theorem invalid_configuration_accepted :
    (init ("RB8888.XSGE") (-1)).cash = -1 ∧
    (init ("RB8888.XSGE") (-1)).margin = 0 ∧
    (init ("RB8888.XSGE") (-1)).holdings = 0 ∧
    (init ("RB8888.XSGE") (-1)).total_asset = [-1] ∧
    (set_params (init ("RB8888.XSGE") (-1)) (some (-1/2)) (some (-3)) (some (-2))).commission_rate
      = -3 ∧
    (set_params (init ("RB8888.XSGE") (-1)) (some (-1/2)) (some (-3)) (some (-2))).margin_ratio
      = -1/2 :=
  ⟨rfl, rfl, rfl, rfl, rfl, rfl⟩

/-- C6 (amended): On a close of a held position the commission equals
`max(exec × |holdings| × contract_size × rate, 5)` where the rate is the
base rate times 5 exactly when the symbol contains `"RB"`, and the base
rate otherwise; the commission is recorded on the appended close record;
and it is entirely independent of the datetimes involved — re-stamping
every record's day (in particular the open's) and closing on any day
leaves it unchanged, so the surcharge is not restricted to same-day
closes. -/
theorem close_commission_rule (s : SHFEFuturesBacktest) (price : ℚ) (dt : ℕ)
    (hh : s.holdings ≠ 0) :
    closeCommission s price =
      max (closeExec s price * (|s.holdings| : ℚ) * s.contract_size *
        (if hasRB s.symbol then s.commission_rate * 5 else s.commission_rate)) 5 ∧
    (closePos s price dt).trade_records = s.trade_records ++
      [TradeRecord.closeRec dt s.symbol (dirOf s.holdings) (closeExec s price)
        |s.holdings| (closeCommission s price) (closeProfit s price)] ∧
    ∀ (g : ℕ → ℕ) (dt2 : ℕ),
      closeCommission (withDatetimes g s) price = closeCommission s price ∧
      (closePos (withDatetimes g s) price dt2).trade_records =
        (withDatetimes g s).trade_records ++
        [TradeRecord.closeRec dt2 s.symbol (dirOf s.holdings) (closeExec s price)
          |s.holdings| (closeCommission s price) (closeProfit (withDatetimes g s) price)] := by
  refine ⟨rfl, ?_, ?_⟩
  · rw [closePos_of_held s price dt hh]
  · intro g dt2
    refine ⟨rfl, ?_⟩
    rw [closePos_of_held (withDatetimes g s) price dt2 (by exact hh)]
    rfl

end SHFEFuturesBacktest

namespace SHFEFuturesBacktest

/-- C6 witness: closing the 900-lot rebar short at bar price 1100 pays
commission `max(1102 × 900 × 10 × (0.0001 × 5), 5) = 4959`. -/
theorem close_commission_rule_witness :
    sHeld.holdings ≠ 0 ∧
    closeCommission sHeld 1100 = 4959 ∧
    (closeCommission sHeld 1100 =
      max (closeExec sHeld 1100 * (|sHeld.holdings| : ℚ) * sHeld.contract_size *
        (if hasRB sHeld.symbol then sHeld.commission_rate * 5 else sHeld.commission_rate)) 5 ∧
    (closePos sHeld 1100 3).trade_records = sHeld.trade_records ++
      [TradeRecord.closeRec 3 sHeld.symbol (dirOf sHeld.holdings) (closeExec sHeld 1100)
        |sHeld.holdings| (closeCommission sHeld 1100) (closeProfit sHeld 1100)] ∧
    ∀ (g : ℕ → ℕ) (dt2 : ℕ),
      closeCommission (withDatetimes g sHeld) 1100 = closeCommission sHeld 1100 ∧
      (closePos (withDatetimes g sHeld) 1100 dt2).trade_records =
        (withDatetimes g sHeld).trade_records ++
        [TradeRecord.closeRec dt2 sHeld.symbol (dirOf sHeld.holdings) (closeExec sHeld 1100)
          |sHeld.holdings| (closeCommission sHeld 1100)
          (closeProfit (withDatetimes g sHeld) 1100)]) := by
  have hh : sHeld.holdings ≠ 0 := by decide
  refine ⟨hh, ?_, close_commission_rule sHeld 1100 3 hh⟩
  norm_num [closeCommission, closeExec, closeRate, tickRound, pyRound, dirOf,
    sHeld, hasRB_rb]

/-- C6 counterexample: in the rebar run the position is opened on day 2
and closed on day 3 — not the day it was opened — yet the recorded close
commission 4959 is the surcharged `rate × 5` value, not the base-rate
value `max(1102 × 900 × 10 × 0.0001, 5) = 991.8`; the surcharge is applied
for the symbol class alone, with no same-day condition. -/
theorem close_surcharge_not_same_day_cex :
    (run_backtest s0RB rbBars 1 2).trade_records.getD 0
        (TradeRecord.openRec 0 ("") Dir.long 0 0 0 0) =
      TradeRecord.openRec 2 ("RB8888.XSGE") Dir.short 997 900 (8973/10) 897300 ∧
    (run_backtest s0RB rbBars 1 2).trade_records.getD 1
        (TradeRecord.openRec 0 ("") Dir.long 0 0 0 0) =
      TradeRecord.closeRec 3 ("RB8888.XSGE") Dir.short 1102 900 4959 (-945000) ∧
    (2 : ℕ) ≠ 3 ∧
    (4959 : ℚ) = max (1102 * 900 * 10 * (1/10000 * 5)) 5 ∧
    (4959 : ℚ) ≠ max (1102 * 900 * 10 * (1/10000)) 5 := by
  rw [rbRun_eq]
  refine ⟨rfl, rfl, by omega, by rw [max_eq_left (by norm_num)]; norm_num, ?_⟩
  rw [max_eq_left (by norm_num)]
  norm_num

end SHFEFuturesBacktest

namespace SHFEFuturesBacktest

/-- C7 witness: a three-bar run with windows 1 and 2 produces an equity
curve of length `(3 − 2 + 1) + 1 = 3` starting at the initial capital. -/
theorem equity_curve_length_witness :
    ((1 : ℕ) ≤ 1 ∧ (1 : ℕ) ≤ 2 ∧ (2 : ℕ) ≤ rbBars.length) ∧
    ((run_backtest (set_params (init ("RB8888.XSGE") 1000000) none none none)
        rbBars 1 2).total_asset.length = (rbBars.length - 2 + 1) + 1 ∧
     (run_backtest (set_params (init ("RB8888.XSGE") 1000000) none none none)
        rbBars 1 2).total_asset.headD 0 = 1000000) :=
  ⟨⟨le_refl 1, by omega, by decide⟩,
   equity_curve_length ("RB8888.XSGE") 1000000 none none none rbBars 1 2
     (le_refl 1) (by omega) (by decide)⟩

/-- C8 (amended): The annualised return reported by `_get_metrics` is
`mean(returns) × 252 × 100` — a percentage computed with the constant 252
hardcoded in the metrics code; the engine's configuration surface
(`initial_capital` and the three `set_params` fields) has no
annualisation factor at all. -/
theorem annual_return_formula (s : SHFEFuturesBacktest)
    (h : 2 ≤ s.total_asset.length) :
    (get_metrics s).annual_return = listMean (pct_change s.total_asset) * 252 * 100 := by
  have hl : 0 < (pct_change s.total_asset).length := by
    rw [pct_change_length]
    omega
  unfold get_metrics
  rw [if_neg (by omega)]
  simp only []
  rw [if_pos hl]

/-- C8 witness: a two-point equity curve satisfies the hypothesis and the
reported annualised return follows the hardcoded formula. -/
theorem annual_return_formula_witness :
    2 ≤ (plainEngine [1000000, 1010000]).total_asset.length ∧
    (get_metrics (plainEngine [1000000, 1010000])).annual_return =
      listMean (pct_change (plainEngine [1000000, 1010000]).total_asset) * 252 * 100 :=
  ⟨by decide, annual_return_formula (plainEngine [1000000, 1010000]) (by decide)⟩

/-- C8 counterexample: on the equity curve `[1000000, 1010000]` the
mean per-step return is `1/100`, and the reported annualised return is
252 — which is neither `mean × 252 = 63/25` nor `mean × 1000 = 10`
(the two candidate configuration factors, 252 daily sessions or
250 × 4 intraday periods): the reported figure is `mean × 252 × 100`
with 252 hardcoded, not `mean × annualizationFactor` for a
configuration-supplied factor. -/
theorem annual_return_hardcoded_cex :
    (get_metrics (plainEngine [1000000, 1010000])).annual_return = 252 ∧
    listMean (pct_change (plainEngine [1000000, 1010000]).total_asset) * 252 = 63/25 ∧
    ((252 : ℚ) ≠ 63/25) ∧
    listMean (pct_change (plainEngine [1000000, 1010000]).total_asset) * 1000 = 10 ∧
    ((252 : ℚ) ≠ 10) := by
  have hm : listMean (pct_change (plainEngine [1000000, 1010000]).total_asset) = 1/100 := by
    norm_num [plainEngine, pct_change, listMean]
  refine ⟨?_, by rw [hm]; norm_num, by norm_num, by rw [hm]; norm_num, by norm_num⟩
  unfold get_metrics
  rw [if_neg (by decide)]
  simp only []
  rw [if_pos (by decide : 0 < (pct_change (plainEngine [1000000, 1010000]).total_asset).length)]
  rw [hm]
  norm_num

end SHFEFuturesBacktest

namespace SHFEFuturesBacktest

/-- C9: The metrics calculator never divides by zero.  For an equity
curve of at most one point every derived metric is the sentinel 0 (and
the final asset is reported as the initial capital); for a longer curve
the Sharpe-style field is `sharpeOf` of the return series; and `sharpeOf`
equals `mean / stdev × sqrt(252)` exactly when at least two returns exist
and their standard deviation is positive, and is the sentinel 0 when the
standard deviation is zero or fewer than two returns exist. -/
theorem metrics_guards (s : SHFEFuturesBacktest) (rs : List ℚ) :
    (s.total_asset.length ≤ 1 →
      (get_metrics s).total_return = 0 ∧ (get_metrics s).annual_return = 0 ∧
      (get_metrics s).sharpe = 0 ∧ (get_metrics s).max_dd = 0 ∧
      (get_metrics s).trade_count = 0 ∧
      (get_metrics s).final_asset = s.initial_capital) ∧
    (2 ≤ s.total_asset.length →
      (get_metrics s).sharpe = sharpeOf (pct_change s.total_asset)) ∧
    (2 ≤ rs.length → 0 < stdevOf rs →
      sharpeOf rs = ((listMean rs : ℚ) : ℝ) / stdevOf rs * Real.sqrt 252) ∧
    (rs.length < 2 ∨ stdevOf rs = 0 → sharpeOf rs = 0) := by
  refine ⟨?_, ?_, ?_, ?_⟩
  · intro h
    unfold get_metrics
    rw [if_pos h]
    exact ⟨rfl, rfl, rfl, rfl, rfl, rfl⟩
  · intro h
    have hl : 0 < (pct_change s.total_asset).length := by
      rw [pct_change_length]
      omega
    unfold get_metrics
    rw [if_neg (by omega)]
    simp only []
    rw [if_pos hl]
  · intro h2 hst
    have hvar : 0 < sampleVar rs := by
      have h := Real.sqrt_pos.mp (by rwa [stdevOf] at hst)
      exact_mod_cast h
    rw [sharpeOf]
    split
    · rfl
    · rename_i hng
      exact absurd ⟨h2, hvar⟩ hng
  · intro h
    rw [sharpeOf]
    split
    · rename_i hg
      exfalso
      rcases h with h | h
      · exact absurd hg.1 (by omega)
      · have h1 : ((sampleVar rs : ℚ) : ℝ) ≤ 0 := Real.sqrt_eq_zero'.mp (by rwa [stdevOf] at h)
        have h2 : sampleVar rs ≤ 0 := by exact_mod_cast h1
        exact absurd hg.2 (by linarith)
    · rfl

/-- C9 witness: a one-point curve reports all-zero metrics, and a return
series with positive variance gets the genuine `mean / stdev × sqrt 252`
ratio. -/
theorem metrics_guards_witness :
    ((plainEngine [1000000]).total_asset.length ≤ 1 ∧
      (get_metrics (plainEngine [1000000])).sharpe = 0 ∧
      (get_metrics (plainEngine [1000000])).annual_return = 0) ∧
    (2 ≤ rsW.length ∧ 0 < stdevOf rsW ∧
      sharpeOf rsW = ((listMean rsW : ℚ) : ℝ) / stdevOf rsW * Real.sqrt 252) := by
  have hst : 0 < stdevOf rsW := by
    rw [stdevOf]
    apply Real.sqrt_pos.mpr
    have h : sampleVar rsW = 1/50 := by
      norm_num [sampleVar, listMean, rsW]
    rw [h]
    norm_num
  have hlen : (plainEngine [1000000]).total_asset.length ≤ 1 := by decide
  refine ⟨⟨hlen, ?_, ?_⟩, by decide, hst,
    (metrics_guards (plainEngine [1000000]) rsW).2.2.1 (by decide) hst⟩
  · exact ((metrics_guards (plainEngine [1000000]) rsW).1 hlen).2.2.1
  · exact ((metrics_guards (plainEngine [1000000]) rsW).1 hlen).2.1

end SHFEFuturesBacktest

namespace SHFEFuturesBacktest

/-- C10 (amended): In every state reachable by `run_backtest`, a flat
book carries zero margin; a held position's margin is exactly
`execPrice × volume × contract_size × margin_ratio` as recorded on that
position's open record (which is the last record of the log); every
`_close` step resets both margin and holdings to zero; and
`_update_asset` changes neither.  The converse direction of the claimed
iff — margin 0 implies flat — fails: the reserved margin is 0 whenever
the open execution price tick-rounds to 0 even though a position is
held. -/
theorem margin_tracks_position (sym : String) (cap : ℚ) (mr? cr? sl? : Option ℚ)
    (bars : List Bar) (fast slow k : ℕ) (s : SHFEFuturesBacktest)
    (hs : s = ((calculate_ma bars fast slow).take k).foldl stepRow
      (set_params (init sym cap) mr? cr? sl?)) :
    (s.holdings = 0 → s.margin = 0) ∧
    (s.holdings ≠ 0 → ∃ dt p v c,
      s.trade_records.getLast? = some (TradeRecord.openRec dt s.symbol (dirOf s.holdings) p v c
        (p * (v : ℚ) * s.contract_size * s.margin_ratio)) ∧
      s.margin = p * (v : ℚ) * s.contract_size * s.margin_ratio ∧ v = |s.holdings|) ∧
    (∀ (price : ℚ) (dt : ℕ),
      (closePos s price dt).margin = 0 ∧ (closePos s price dt).holdings = 0) ∧
    (∀ price : ℚ, (update_asset s price).margin = s.margin ∧
      (update_asset s price).holdings = s.holdings) := by
  have hInv : Inv s := by
    rw [hs]
    exact Inv_foldl _ _ (Inv_start sym cap mr? cr? sl?)
  refine ⟨hInv.2.1, ?_, ?_, fun price => ⟨rfl, rfl⟩⟩
  · intro hh
    obtain ⟨dt, p, v, c, hg, hv, _, hmg⟩ := Inv_getLast_open s hInv hh
    exact ⟨dt, p, v, c, hg, hmg, hv⟩
  · intro price dt
    by_cases h0 : s.holdings = 0
    · rw [closePos_of_flat s price dt h0]
      exact ⟨hInv.2.1 h0, h0⟩
    · rw [closePos_of_held s price dt h0]
      exact ⟨rfl, rfl⟩

/-- C10 witness: the state after the first simulated rebar bar holds a
short of 900 lots, its margin matching the open record's
`997 × 900 × 10 × 0.1`. -/
theorem margin_tracks_position_witness :
    sHeld = ((calculate_ma rbBars 1 2).take 1).foldl stepRow
      (set_params (init ("RB8888.XSGE") 1000000) none none none) ∧
    sHeld.holdings ≠ 0 ∧
    (∃ dt p v c,
      sHeld.trade_records.getLast? = some (TradeRecord.openRec dt sHeld.symbol
        (dirOf sHeld.holdings) p v c (p * (v : ℚ) * sHeld.contract_size * sHeld.margin_ratio)) ∧
      sHeld.margin = p * (v : ℚ) * sHeld.contract_size * sHeld.margin_ratio ∧
      v = |sHeld.holdings|) := by
  have hs : sHeld = ((calculate_ma rbBars 1 2).take 1).foldl stepRow
      (set_params (init ("RB8888.XSGE") 1000000) none none none) := rbState1.symm
  exact ⟨hs, by decide,
    (margin_tracks_position ("RB8888.XSGE") 1000000 none none none rbBars 1 2 1 sHeld hs).2.1
      (by decide)⟩

/-- C10 counterexample: after the copper open whose execution price
tick-rounds to 0, the engine holds 600000 short lots while the margin is
0 — `margin == 0` does not imply `holdings == 0`. -/
theorem margin_zero_with_position_cex :
    (run_backtest s0CU cuBars 1 2).holdings = -600000 ∧
    (run_backtest s0CU cuBars 1 2).holdings ≠ 0 ∧
    (run_backtest s0CU cuBars 1 2).margin = 0 := by
  rw [cuRun_eq]
  exact ⟨rfl, by decide, rfl⟩

/-- C2 witness: on the rebar run the state after one simulated bar holds
−900 (short); the next bar flips the sign to +40 (long), and the records
appended on that bar start with a Close record. -/
theorem single_open_position_witness :
    (((calculate_ma rbBars 1 2).take 1).foldl stepRow
      (set_params (init ("RB8888.XSGE") 1000000) none none none)).holdings < 0 ∧
    0 < (stepRow (((calculate_ma rbBars 1 2).take 1).foldl stepRow
      (set_params (init ("RB8888.XSGE") 1000000) none none none))
        ⟨3, 1100, 1100, 2099/2⟩).holdings ∧
    (∃ rest dt p v c pr,
      (stepRow (((calculate_ma rbBars 1 2).take 1).foldl stepRow
        (set_params (init ("RB8888.XSGE") 1000000) none none none))
          ⟨3, 1100, 1100, 2099/2⟩).trade_records =
        (((calculate_ma rbBars 1 2).take 1).foldl stepRow
          (set_params (init ("RB8888.XSGE") 1000000) none none none)).trade_records ++
          TradeRecord.closeRec dt
            (((calculate_ma rbBars 1 2).take 1).foldl stepRow
              (set_params (init ("RB8888.XSGE") 1000000) none none none)).symbol
            (dirOf (((calculate_ma rbBars 1 2).take 1).foldl stepRow
              (set_params (init ("RB8888.XSGE") 1000000) none none none)).holdings)
            p v c pr :: rest) := by
  have hfold : ((calculate_ma rbBars 1 2).take 1).foldl stepRow
      (set_params (init ("RB8888.XSGE") 1000000) none none none) = sHeld := rbState1
  have h1 : (((calculate_ma rbBars 1 2).take 1).foldl stepRow
      (set_params (init ("RB8888.XSGE") 1000000) none none none)).holdings < 0 := by
    rw [hfold]
    decide
  have h2 : 0 < (stepRow (((calculate_ma rbBars 1 2).take 1).foldl stepRow
      (set_params (init ("RB8888.XSGE") 1000000) none none none))
        ⟨3, 1100, 1100, 2099/2⟩).holdings := by
    rw [hfold, rbStep2]
    decide
  exact ⟨h1, h2,
    (single_open_position ("RB8888.XSGE") 1000000 none none none rbBars 1 2 1
      ⟨3, 1100, 1100, 2099/2⟩).2.2.2 h1 h2⟩

end SHFEFuturesBacktest
